import Mathlib

/-!
Verification of the reactive event-stream subsystem of `holoviews/streams.py`
(the `Preprocessor`/`Rename`/`Stream` classes and their `value`/`update`/`trigger`
protocol), as a shallow embedding in Lean 4.

Modelling conventions, stated once:

* A Python dictionary built from a sequence of key/value pairs is represented
  by the plain list of those pairs; `pyGet` gives Python's lookup semantics,
  where a later pair with the same key overwrites an earlier one
  (`d[k] = v` performed left to right).
* Parameter values carried by streams are numbers or strings (`PVal`); the
  declared parameters of the stream variants in the source are `param.Number`
  fields plus the implicit `name` string parameter, so the declared type of a
  field is captured by `PType`, and assignment of a value of the wrong kind
  fails exactly as `param`'s type validation raises.
* Subscribers are Python callables compared by identity inside `set(...)`;
  they are modelled by identity tokens (`Nat`), and their behaviour when
  invoked is supplied externally by a `SubEnv` which either returns normally
  (`none`) or raises an exception message (`some e`).
* A raised Python exception propagates but leaves the mutated object state in
  place, so fallible operations return the state reached so far together with
  `Option String` (the exception, if one was raised), not `Except`.
-/

namespace HoloStreams

abbrev Key := String

/-- A Python value held by a stream parameter: the stream variants in the
source declare `param.Number` fields, and arbitrary values can be passed in. -/
inductive PVal where
  | num : Int → PVal
  | str : String → PVal
deriving DecidableEq, Repr

/-- Lookup in a Python dict represented as its key/value pair list: the last
pair carrying the key wins, as when the dict is built by successive
assignment. -/
def pyGet : List (Key × α) → Key → Option α
  | [], _ => none
  | (a, b) :: d, k => (pyGet d k).or (if a = k then some b else none)

/-- Python's `d.get(k, k)` on a name-to-name dict: the alias if present,
otherwise the key itself. -/
def aliasGet (m : List (Key × Key)) (k : Key) : Key :=
  (pyGet m k).getD k

/-- The declared type of a stream parameter: `param.Number` for the data
fields of the stream variants, `param.String` for the implicit `name` field. -/
inductive PType where
  | number
  | string
deriving DecidableEq, Repr

/-- Whether a value passes `param`'s type validation for a declared field. -/
def PType.validates : PType → PVal → Bool
  | .number, .num _ => true
  | .string, .str _ => true
  | _, _ => false

/-- One declared parameter: its type constraint, current value, and
`constant` flag. -/
structure PParam where
  ptype : PType
  value : PVal
  constant : Bool
deriving DecidableEq, Repr

/-- A preprocessor: the base `Preprocessor` class returns its argument
unchanged; `Rename` carries the alias table given to its constructor. -/
inductive Preproc where
  | preprocessor
  | rename (mapping : List (Key × Key))
deriving DecidableEq, Repr

/-- `Rename.__call__`: `{self.mapping.get(k,k): v for (k,v) in params.items()}`. -/
def renameApply (mapping : List (Key × Key)) (params : List (Key × PVal)) :
    List (Key × PVal) :=
  params.map fun kv => (aliasGet mapping kv.1, kv.2)

/-- `Preprocessor.__call__` / `Rename.__call__`. -/
def Preproc.apply : Preproc → List (Key × PVal) → List (Key × PVal)
  | .preprocessor, params => params
  | .rename m, params => renameApply m params

/-- The state of one `Stream` instance: its declared parameters (including
the implicit `name` field), the generic instance attributes created by
assignment to undeclared names, the `mapping`, the subscriber lists and the
preprocessor list.  The uuid/registry bookkeeping is not needed by any claim
below and is omitted. -/
structure StreamState where
  fields : List (Key × PParam)
  extra : List (Key × PVal)
  mapping : List (Key × Key)
  subscribers : List Nat
  hiddenSubscribers : List Nat
  preprocessors : List Preproc
deriving DecidableEq, Repr

/-- `get_param_values()`: the declared parameters with their current values. -/
def getParamValues (s : StreamState) : List (Key × PVal) :=
  s.fields.map fun kv => (kv.1, kv.2.value)

/-- The `value` property:
`{self.mapping.get(k,k): v for (k,v) in self.get_param_values() if k != 'name'}`
followed by `for preprocessor in self.preprocessors: remapped = preprocessor(remapped)`. -/
def Stream.value (s : StreamState) : List (Key × PVal) :=
  let remapped := ((getParamValues s).filter fun kv => kv.1 ≠ "name").map
    fun kv => (aliasGet s.mapping kv.1, kv.2)
  s.preprocessors.foldl (fun acc p => p.apply acc) remapped

/-- The `value` property getter performs no assignment at all, so as a state
transition it returns its result together with the unchanged instance state. -/
def valueRead (s : StreamState) : List (Key × PVal) × StreamState :=
  (Stream.value s, s)

/-- Modelled from the spec: the `param` library's attribute setter, which is
not under `src/`.  Setting a declared field checks the `constant` flag and the
declared type, raising (`some` message) on violation; per the spec, an
undeclared name is accepted silently by the generic setter and becomes a plain
instance attribute.  The state reached so far is kept on failure, as a raised
Python exception does not roll back mutations. -/
def setAttr (s : StreamState) (k : Key) (v : PVal) : StreamState × Option String :=
  match pyGet s.fields k with
  | some p =>
      if p.constant then (s, some "Constant parameter cannot be modified")
      else if p.ptype.validates v then
        ({ s with fields := s.fields.map fun kv =>
            if kv.1 = k then (kv.1, { kv.2 with value := v }) else kv }, none)
      else (s, some "Parameter only takes numeric values")
  | none => ({ s with extra := s.extra ++ [(k, v)] }, none)

/-- Modelled from the spec: `param`'s `set_param(**kwargs)` applies the
attribute setter to each keyword argument in turn; the first raised exception
propagates, abandoning the remaining assignments. -/
def set_param (s : StreamState) : List (Key × PVal) → StreamState × Option String
  | [] => (s, none)
  | (k, v) :: rest =>
      match setAttr s k v with
      | (s1, none) => set_param s1 rest
      | (s1, some e) => (s1, some e)

/-- The constant flags saved by `Stream.update` before mutating:
`constants = [p.constant for p in params]`. -/
def constFlags (s : StreamState) : List Bool :=
  s.fields.map fun kv => kv.2.constant

/-- `Stream.update` without the trigger step: save every field's constant
flag, set all flags to `False`, run `set_param(**kwargs)`, and — only when no
exception was raised, since the source has no `try/finally` — restore the
saved flags positionally (`zip(params, constants)`). -/
def Stream.update (s : StreamState) (kwargs : List (Key × PVal)) :
    StreamState × Option String :=
  let constants := constFlags s
  let s1 := { s with fields := s.fields.map fun kv =>
      (kv.1, { kv.2 with constant := false }) }
  match set_param s1 kwargs with
  | (s2, some e) => (s2, some e)
  | (s2, none) =>
      ({ s2 with fields := (s2.fields.zip constants).map fun pc =>
          (pc.1.1, { pc.1.2 with constant := pc.2 }) }, none)

/-- The behaviour of the subscriber callables: invoking subscriber `f` on a
value mapping either returns normally (`none`) or raises (`some` message). -/
def SubEnv := Nat → List (Key × PVal) → Option String

/-- The union of the stream value mappings built by `Stream.trigger`:
`dict(kv for kvs in items for kv in kvs)` where
`items = [stream.value.items() for stream in streams]`; under the list
representation of dicts this is the concatenation, read through `pyGet`. -/
def triggerUnion (streams : List StreamState) : List (Key × PVal) :=
  (streams.map Stream.value).flatten

/-- The subscriber set built by `Stream.trigger`:
`set(s for subscribers in groups for s in subscribers)` over
`groups = [stream.subscribers + stream._hidden_subscribers for stream in streams]`.
Python set iteration order is unspecified; the model fixes one enumeration of
the set, `List.dedup` of the concatenation. -/
def subsUnion (streams : List StreamState) : List Nat :=
  ((streams.map fun s => s.subscribers ++ s.hiddenSubscribers).flatten).dedup

/-- The fan-out loop of `Stream.trigger`: invoke each subscriber in turn with
the union mapping, recording the invocations; a raised exception propagates
and the remaining subscribers are not invoked. -/
def runSubs (env : SubEnv) (union : List (Key × PVal)) :
    List Nat → List (Nat × List (Key × PVal)) × Option String
  | [] => ([], none)
  | f :: rest =>
      match env f union with
      | none =>
          let r := runSubs env union rest
          ((f, union) :: r.1, r.2)
      | some e => ([(f, union)], some e)

/-- `Stream.trigger(streams)`: build the union of the value mappings and the
subscriber set, then invoke every subscriber with the union.  Returns the
invocation trace (who was called, with what) and the propagated exception, if
any. -/
def Stream.trigger (env : SubEnv) (streams : List StreamState) :
    List (Nat × List (Key × PVal)) × Option String :=
  runSubs env (triggerUnion streams) (subsUnion streams)

/-- `Stream.update(trigger=flag, **kwargs)` in full: mutate via
`Stream.update`, then, when no exception was raised and the flag is set,
run `self.trigger([self])`. -/
def Stream.updateT (env : SubEnv) (s : StreamState) (triggerFlag : Bool)
    (kwargs : List (Key × PVal)) :
    StreamState × List (Nat × List (Key × PVal)) × Option String :=
  match Stream.update s kwargs with
  | (s1, some e) => (s1, [], some e)
  | (s1, none) =>
      if triggerFlag then
        let r := Stream.trigger env [s1]
        (s1, r.1, r.2)
      else (s1, [], none)

/-- The `mapping` argument of `Stream.__init__`: `None`, a dict, or any other
(scalar) value. -/
inductive MappingArg where
  | none
  | dict (d : List (Key × Key))
  | scalar (v : Key)
deriving DecidableEq, Repr

/-- The `mapping` normalisation in `Stream.__init__`: `None` becomes `{}`, a
dict is taken as is, and any other value requires `len(self.params()) == 2`
(the implicit `name` parameter plus exactly one data field), in which case it
becomes `{k: mapping for k in self.params() if k != 'name'}`; otherwise the
constructor raises. -/
def Stream.init (fields : List (Key × PParam)) (mapping : MappingArg)
    (subscribers : List Nat) (preprocessors : List Preproc) :
    Except String StreamState :=
  let m : Except String (List (Key × Key)) :=
    match mapping with
    | .none => .ok []
    | .dict d => .ok d
    | .scalar v =>
        if fields.length = 2 then
          .ok (((fields.map Prod.fst).filter fun k => k ≠ "name").map fun k => (k, v))
        else .error "Stream has multiple parameters, please supply a dictionary"
  m.map fun mp =>
    { fields := fields, extra := [], mapping := mp, subscribers := subscribers,
      hiddenSubscribers := [], preprocessors := preprocessors }

/-- The spec's description of the `value` read accessor, written from its
words for comparison with `Stream.value`: read all declared field values
except the implicit name field; remap keys using `mapping` (no-op if a key is
absent from `mapping`); apply each preprocessor in declared order, threading
the output of one into the input of the next. -/
def valueSpecification (s : StreamState) : List (Key × PVal) :=
  let declared := (s.fields.filter fun kv => kv.1 ≠ "name").map
    fun kv => (kv.1, kv.2.value)
  let remapped := declared.map fun kv => (aliasGet s.mapping kv.1, kv.2)
  s.preprocessors.foldl (fun acc p => p.apply acc) remapped

/-!
Aliasing model for the mutable default arguments of `Stream.__init__`
(`subscribers=[]`, `preprocessors=[]`).  CPython evaluates a default argument
expression once, when the `def` is executed, so every call that omits the
argument receives the very same list object; `self.subscribers = subscribers`
then stores that shared object.  List objects live on an explicit heap of
cells addressed by `Nat` references.
-/

/-- The heap of Python list objects holding subscriber callables (identified
by their `Nat` tokens), addressed by reference. -/
def SubHeap := Nat → List Nat

/-- In-place `list.append` on the list object at reference `r`. -/
def SubHeap.append (h : SubHeap) (r : Nat) (f : Nat) : SubHeap :=
  fun r1 => if r1 = r then h r ++ [f] else h r1

/-- The two list objects created once when `def __init__(self, mapping=None,
source=None, subscribers=[], preprocessors=[], **params)` is executed: the
defaults for `subscribers` and for `preprocessors`. -/
structure DefaultEnv where
  defaultSubsRef : Nat
  defaultPreRef : Nat

/-- A stream instance under the aliasing model: the references its
`subscribers` and `preprocessors` attributes hold, and its own
`_hidden_subscribers` list, which `__init__` creates fresh per instance. -/
structure StreamRef where
  subsRef : Nat
  preRef : Nat
  hidden : List Nat

/-- `Stream.__init__` restricted to the attribute assignments
`self.subscribers = subscribers`, `self.preprocessors = preprocessors` and
`self._hidden_subscribers = []`: a caller passing no argument gets the shared
default object of `env`. -/
def initRefs (env : DefaultEnv) (subscribersArg : Option Nat)
    (preprocessorsArg : Option Nat) : StreamRef :=
  { subsRef := subscribersArg.getD env.defaultSubsRef,
    preRef := preprocessorsArg.getD env.defaultPreRef,
    hidden := [] }

/-- The subscriber set `Stream.trigger` iterates over, under the aliasing
model: each stream's `subscribers` list is read from the heap. -/
def triggerSubsHeap (h : SubHeap) (streams : List StreamRef) : List Nat :=
  ((streams.map fun s => h s.subsRef ++ s.hidden).flatten).dedup

/-- The key, declared type and constant flag of every field, in declaration
order — everything about the fields except their current values. -/
def fieldShape (l : List (Key × PParam)) : List (Key × PType × Bool) :=
  l.map fun kv => (kv.1, kv.2.ptype, kv.2.constant)

/-- The key and current value of every field, in declaration order. -/
def fieldVals (l : List (Key × PParam)) : List (Key × PVal) :=
  l.map fun kv => (kv.1, kv.2.value)

/-- A concrete `PositionX(mapping=dict(x='posx'))` instance with one
subscriber (token `7`): the implicit `name` string parameter plus the
constant `x = 0` number parameter. -/
def posXStream : StreamState :=
  { fields := [("name", ⟨PType.string, PVal.str "PositionX00001", false⟩),
               ("x", ⟨PType.number, PVal.num 0, true⟩)],
    extra := [], mapping := [("x", "posx")], subscribers := [7],
    hiddenSubscribers := [], preprocessors := [] }

/-- A concrete `PositionY` instance whose `y` field also remaps to `posx`,
to collide with `posXStream` in a joint trigger; it shares subscriber `7`
and adds subscriber `8`. -/
def posYStream : StreamState :=
  { fields := [("name", ⟨PType.string, PVal.str "PositionY00001", false⟩),
               ("y", ⟨PType.number, PVal.num 11, true⟩)],
    extra := [], mapping := [("y", "posx")], subscribers := [7, 8],
    hiddenSubscribers := [], preprocessors := [] }

/-! General lemmas about the dict model. -/

theorem pyGet_append (xs ys : List (Key × α)) (k : Key) :
    pyGet (xs ++ ys) k = (pyGet ys k).or (pyGet xs k) := by
  induction xs with
  | nil => simp [pyGet]
  | cons a d ih =>
      obtain ⟨a1, b1⟩ := a
      simp only [List.cons_append, pyGet, List.append_eq, ih, Option.or_assoc]

theorem pyGet_eq_none_of_not_mem {l : List (Key × α)} {k : Key}
    (h : k ∉ l.map Prod.fst) : pyGet l k = none := by
  induction l with
  | nil => rfl
  | cons a d ih =>
      simp only [List.map_cons, List.mem_cons] at h
      push_neg at h
      simp only [pyGet, ih h.2]
      simp [Ne.symm h.1]

theorem pyGet_mem {l : List (Key × α)} {k : Key} {b : α}
    (h : pyGet l k = some b) : (k, b) ∈ l := by
  induction l with
  | nil => simp [pyGet] at h
  | cons a d ih =>
      obtain ⟨a1, b1⟩ := a
      simp only [pyGet] at h
      cases hd : pyGet d k with
      | some c =>
          rw [hd] at h
          simp only [Option.or] at h
          exact List.mem_cons_of_mem _ (ih (hd.trans (congrArg some (Option.some.inj h))))
      | none =>
          rw [hd] at h
          simp only [Option.or] at h
          by_cases hk : a1 = k
          · simp [hk] at h
            simp [hk, h]
          · simp [hk] at h

/-- Lookup through `pyGet` after remapping keys by `f`, when the remapped
keys are pairwise distinct: the entry of the original key is found, with its
value unchanged. -/
theorem pyGet_map_remap {l : List (Key × α)} {f : Key → Key} {k : Key} {v : α}
    (hnd : (l.map fun kv => f kv.1).Nodup) (hm : (k, v) ∈ l) :
    pyGet (l.map fun kv => (f kv.1, kv.2)) (f k) = some v := by
  induction l with
  | nil => simp at hm
  | cons a d ih =>
      obtain ⟨a1, b1⟩ := a
      simp only [List.map_cons, List.nodup_cons] at hnd
      simp only [List.map_cons, pyGet]
      rcases List.mem_cons.mp hm with heq | htl
      · obtain ⟨rfl, rfl⟩ := Prod.mk.injEq k v a1 b1 ▸ heq
        have hnone : pyGet (d.map fun kv => (f kv.1, kv.2)) (f k) = none := by
          refine pyGet_eq_none_of_not_mem ?_
          intro hc
          rcases List.mem_map.mp hc with ⟨kv1, hkv1, hfst⟩
          rcases List.mem_map.mp hkv1 with ⟨kv0, hkv0, rfl⟩
          exact hnd.1 (hfst ▸ List.mem_map_of_mem (fun kv => f kv.1) hkv0)
        rw [hnone]
        simp [Option.or]
      · rw [ih hnd.2 htl]
        rfl

/-- `pyGet` commutes with a transformation that keeps every key and rewrites
the value, possibly depending on the key. -/
theorem pyGet_map_keyed (l : List (Key × α)) (g : Key → α → β) (k : Key) :
    pyGet (l.map fun kv => (kv.1, g kv.1 kv.2)) k = (pyGet l k).map (g k) := by
  induction l with
  | nil => rfl
  | cons a d ih =>
      obtain ⟨a1, b1⟩ := a
      simp only [List.map_cons, pyGet, ih]
      cases pyGet d k with
      | some c => simp [Option.or]
      | none =>
          by_cases hk : a1 = k
          · subst hk
            simp [Option.or]
          · simp [Option.or, hk]

/-! Lemmas about the subscriber fan-out loop. -/

theorem runSubs_ok (env : SubEnv) (union : List (Key × PVal)) :
    ∀ (subs : List Nat), (∀ f ∈ subs, env f union = none) →
    runSubs env union subs = (subs.map fun f => (f, union), none) := by
  intro subs h
  induction subs with
  | nil => rfl
  | cons f rest ih =>
      simp only [runSubs, h f (List.mem_cons_self f rest)]
      rw [ih fun g hg => h g (List.mem_cons_of_mem f hg)]
      rfl

theorem runSubs_abort {env : SubEnv} {union : List (Key × PVal)} {f : Nat}
    {e : String} (pre post : List Nat) (hpre : ∀ g ∈ pre, env g union = none)
    (hf : env f union = some e) :
    runSubs env union (pre ++ f :: post) =
      (pre.map (fun g => (g, union)) ++ [(f, union)], some e) := by
  induction pre with
  | nil => simp only [List.nil_append, runSubs, hf, List.map_nil]
  | cons g rest ih =>
      simp only [List.cons_append, runSubs, List.append_eq,
        hpre g (List.mem_cons_self g rest)]
      rw [ih fun g1 hg1 => hpre g1 (List.mem_cons_of_mem g hg1)]
      rfl

/-! Preservation lemmas: the attribute setter never changes a field's key,
declared type or constant flag, nor the mapping, subscriber and preprocessor
attributes. -/

theorem setAttr_shape (s : StreamState) (k : Key) (v : PVal) :
    fieldShape ((setAttr s k v).1).fields = fieldShape s.fields ∧
    ((setAttr s k v).1).mapping = s.mapping ∧
    ((setAttr s k v).1).subscribers = s.subscribers ∧
    ((setAttr s k v).1).hiddenSubscribers = s.hiddenSubscribers ∧
    ((setAttr s k v).1).preprocessors = s.preprocessors := by
  unfold setAttr
  cases hp : pyGet s.fields k with
  | none => exact ⟨rfl, rfl, rfl, rfl, rfl⟩
  | some p =>
      by_cases hc : p.constant
      · simp [hc]
      · by_cases hv : p.ptype.validates v
        · refine ⟨?_, by simp [hc, hv], by simp [hc, hv], by simp [hc, hv],
            by simp [hc, hv]⟩
          simp only [hc, hv, Bool.false_eq_true, if_false, if_true]
          unfold fieldShape
          rw [List.map_map]
          refine List.map_congr_left fun kv _ => ?_
          by_cases hk : kv.1 = k <;> simp [hk]
        · simp [hc, hv]

theorem set_param_shape : ∀ (kwargs : List (Key × PVal)) (s : StreamState),
    fieldShape ((set_param s kwargs).1).fields = fieldShape s.fields ∧
    ((set_param s kwargs).1).mapping = s.mapping ∧
    ((set_param s kwargs).1).subscribers = s.subscribers ∧
    ((set_param s kwargs).1).hiddenSubscribers = s.hiddenSubscribers ∧
    ((set_param s kwargs).1).preprocessors = s.preprocessors
  | [], _ => ⟨rfl, rfl, rfl, rfl, rfl⟩
  | (k, v) :: rest, s => by
      have h1 := setAttr_shape s k v
      simp only [set_param]
      cases hsa : setAttr s k v with
      | mk s1 err =>
          rw [hsa] at h1
          cases err with
          | none =>
              have h2 := set_param_shape rest s1
              exact ⟨h2.1.trans h1.1, h2.2.1.trans h1.2.1, h2.2.2.1.trans h1.2.2.1,
                h2.2.2.2.1.trans h1.2.2.2.1, h2.2.2.2.2.trans h1.2.2.2.2⟩
          | some e => exact h1

/-! Lemmas about lifting and restoring the constant flags. -/

theorem lift_restore (l : List (Key × PParam)) :
    (((l.map fun kv => (kv.1, { kv.2 with constant := false })).zip
        (l.map fun kv => kv.2.constant)).map fun pc =>
          (pc.1.1, { pc.1.2 with constant := pc.2 })) = l := by
  induction l with
  | nil => rfl
  | cons a d ih =>
      obtain ⟨a1, ⟨pt, pv, pc⟩⟩ := a
      simp only [List.map_cons, List.zip_cons_cons, ih]

theorem restore_constFlags (l : List (Key × PParam)) (c : List Bool)
    (h : l.length = c.length) :
    ((l.zip c).map fun pc => (pc.1.1, { pc.1.2 with constant := pc.2 })).map
      (fun kv => kv.2.constant) = c := by
  induction l generalizing c with
  | nil =>
      cases c with
      | nil => rfl
      | cons b cs => simp at h
  | cons a d ih =>
      cases c with
      | nil => simp at h
      | cons b cs =>
          simp only [List.zip_cons_cons, List.map_cons]
          rw [ih cs (by simpa using h)]

theorem restore_fieldVals (l : List (Key × PParam)) (c : List Bool)
    (h : l.length = c.length) :
    fieldVals ((l.zip c).map fun pc => (pc.1.1, { pc.1.2 with constant := pc.2 })) =
      fieldVals l := by
  induction l generalizing c with
  | nil =>
      cases c with
      | nil => rfl
      | cons b cs => simp at h
  | cons a d ih =>
      cases c with
      | nil => simp at h
      | cons b cs =>
          simp only [List.zip_cons_cons, fieldVals, List.map_cons] at ih ⊢
          rw [ih cs (by simpa using h)]

theorem fieldShape_length {l l' : List (Key × PParam)}
    (h : fieldShape l' = fieldShape l) : l'.length = l.length := by
  simpa [fieldShape] using congrArg List.length h

theorem constFlags_of_shape {l l' : List (Key × PParam)}
    (h : fieldShape l' = fieldShape l) :
    l'.map (fun kv => kv.2.constant) = l.map fun kv => kv.2.constant := by
  have := congrArg (List.map fun x : Key × PType × Bool => x.2.2) h
  simpa [fieldShape, List.map_map, Function.comp] using this

/-! Characterisation of `Stream.update`. -/

theorem update_components (s : StreamState) (kwargs : List (Key × PVal)) :
    (Stream.update s kwargs).1.mapping = s.mapping ∧
    (Stream.update s kwargs).1.subscribers = s.subscribers ∧
    (Stream.update s kwargs).1.hiddenSubscribers = s.hiddenSubscribers ∧
    (Stream.update s kwargs).1.preprocessors = s.preprocessors := by
  have h := set_param_shape kwargs
    { s with fields := s.fields.map fun kv => (kv.1, { kv.2 with constant := false }) }
  simp only [Stream.update]
  cases hsp : set_param
      { s with fields := s.fields.map fun kv => (kv.1, { kv.2 with constant := false }) }
      kwargs with
  | mk s2 err =>
      rw [hsp] at h
      cases err with
      | none => exact ⟨h.2.1, h.2.2.1, h.2.2.2.1, h.2.2.2.2⟩
      | some e => exact ⟨h.2.1, h.2.2.1, h.2.2.2.1, h.2.2.2.2⟩

/-- The shape of the fields reached by `set_param` inside `update`, compared
with the caller's fields: keys and types unchanged, all flags lowered. -/
theorem update_inner_shape (s : StreamState) (kwargs : List (Key × PVal)) :
    fieldShape ((set_param
        { s with fields := s.fields.map fun kv => (kv.1, { kv.2 with constant := false }) }
        kwargs).1).fields =
      s.fields.map fun kv => (kv.1, kv.2.ptype, false) := by
  have h := (set_param_shape kwargs
    { s with fields := s.fields.map fun kv => (kv.1, { kv.2 with constant := false }) }).1
  rw [h]
  simp [fieldShape, List.map_map]

/-- When `set_param` raises, `update` skips the restoration loop: every
constant flag of the resulting state is still `false`. -/
theorem update_err_flags (s : StreamState) (kwargs : List (Key × PVal))
    (h : (Stream.update s kwargs).2 ≠ none) :
    constFlags (Stream.update s kwargs).1 = s.fields.map fun _ => false := by
  have hs := update_inner_shape s kwargs
  simp only [Stream.update] at h ⊢
  cases hsp : set_param
      { s with fields := s.fields.map fun kv => (kv.1, { kv.2 with constant := false }) }
      kwargs with
  | mk s2 err =>
      rw [hsp] at h hs
      cases err with
      | none => simp [hsp] at h
      | some e =>
          have h2 := congrArg (List.map fun x : Key × PType × Bool => x.2.2) hs
          simp only [fieldShape, List.map_map, Function.comp] at h2
          simpa only [constFlags] using h2

/-- When `set_param` returns normally, `update` restores every constant flag
to its saved value. -/
theorem update_ok_flags (s : StreamState) (kwargs : List (Key × PVal))
    (h : (Stream.update s kwargs).2 = none) :
    constFlags (Stream.update s kwargs).1 = constFlags s := by
  have hs := update_inner_shape s kwargs
  simp only [Stream.update] at h ⊢
  cases hsp : set_param
      { s with fields := s.fields.map fun kv => (kv.1, { kv.2 with constant := false }) }
      kwargs with
  | mk s2 err =>
      rw [hsp] at h hs
      cases err with
      | some e => simp [hsp] at h
      | none =>
          have hlen : s2.fields.length = (constFlags s).length := by
            have := congrArg List.length hs
            simpa [fieldShape, constFlags] using this
          simpa [constFlags] using restore_constFlags s2.fields (constFlags s) hlen

theorem pyGet_lift (l : List (Key × PParam)) (k : Key) :
    pyGet (l.map fun kv => (kv.1, { kv.2 with constant := false })) k =
      (pyGet l k).map fun p => { p with constant := false } := by
  have h := pyGet_map_keyed l (fun _ (p : PParam) => { p with constant := false }) k
  exact h

/-- `update` with a single unrecognised field name raises nothing: the value
lands in the generic instance attributes, the declared fields come back
exactly as they were. -/
theorem update_unknown (s : StreamState) (k : Key) (v : PVal)
    (hk : pyGet s.fields k = none) :
    Stream.update s [(k, v)] = ({ s with extra := s.extra ++ [(k, v)] }, none) := by
  have hl : pyGet (s.fields.map fun kv => (kv.1, { kv.2 with constant := false })) k
      = none := by rw [pyGet_lift, hk]; rfl
  simp only [Stream.update, set_param, setAttr, hl]
  have hr := lift_restore s.fields
  simp only [constFlags]
  rw [hr]

/-- `update` with a single declared field name and a value passing type
validation returns normally, and the resulting field values are the old ones
with that field set to the new value. -/
theorem update_declared_single (s : StreamState) (k : Key) (v : PVal) (p : PParam)
    (hk : pyGet s.fields k = some p) (hv : p.ptype.validates v = true) :
    (Stream.update s [(k, v)]).2 = none ∧
    fieldVals (Stream.update s [(k, v)]).1.fields =
      s.fields.map fun kv => (kv.1, if kv.1 = k then v else kv.2.value) := by
  have hl : pyGet (s.fields.map fun kv => (kv.1, { kv.2 with constant := false })) k
      = some { p with constant := false } := by rw [pyGet_lift, hk]; rfl
  simp only [Stream.update, set_param, setAttr, hl, hv, Bool.false_eq_true, if_false,
    if_true]
  refine ⟨by trivial, ?_⟩
  have hlen :
      (((s.fields.map fun kv => (kv.1, { kv.2 with constant := false })).map fun kv =>
          if kv.1 = k then (kv.1, { kv.2 with value := v }) else kv)).length =
        (constFlags s).length := by
    simp [constFlags]
  rw [show constFlags s = s.fields.map (fun kv => kv.2.constant) from rfl] at hlen ⊢
  rw [restore_fieldVals _ _ hlen]
  simp only [fieldVals, List.map_map]
  refine List.map_congr_left fun kv _ => ?_
  by_cases hkk : kv.1 = k <;> simp [hkk]

/-- With no preprocessors installed, `value` is the filtered, remapped field
value list. -/
theorem value_no_preproc (s : StreamState) (h : s.preprocessors = []) :
    Stream.value s = ((fieldVals s.fields).filter fun kv => kv.1 ≠ "name").map
      fun kv => (aliasGet s.mapping kv.1, kv.2) := by
  simp [Stream.value, h, getParamValues, fieldVals]

/-- Looking a field up in `value` through its external name, when the
remapped names of the projected fields are pairwise distinct. -/
theorem value_lookup (s : StreamState) (k : Key) (v : PVal)
    (hpre : s.preprocessors = [])
    (hkv : pyGet (fieldVals s.fields) k = some v) (hk : k ≠ "name")
    (hnd : (((fieldVals s.fields).filter fun kv => kv.1 ≠ "name").map
        fun kv => aliasGet s.mapping kv.1).Nodup) :
    pyGet (Stream.value s) (aliasGet s.mapping k) = some v := by
  have hmem : (k, v) ∈ (fieldVals s.fields).filter fun kv => kv.1 ≠ "name" :=
    List.mem_filter.mpr ⟨pyGet_mem hkv, by simpa using hk⟩
  rw [value_no_preproc s hpre]
  exact pyGet_map_remap hnd hmem

/-- Filtering on the key and then projecting a function of the key depends
only on the key list. -/
theorem filter_map_fst_congr {l l' : List (Key × PVal)} (p : Key → Bool)
    (f : Key → Key) (h : l.map Prod.fst = l'.map Prod.fst) :
    (l.filter fun kv => p kv.1).map (fun kv => f kv.1) =
      (l'.filter fun kv => p kv.1).map fun kv => f kv.1 := by
  induction l generalizing l' with
  | nil =>
      cases l' with
      | nil => rfl
      | cons b d' => simp at h
  | cons a d ih =>
      cases l' with
      | nil => simp at h
      | cons b d' =>
          simp only [List.map_cons, List.cons.injEq] at h
          obtain ⟨h1, h2⟩ := h
          simp only [List.filter_cons, h1]
          cases hp : p b.1 <;> simp [h1, ih h2]

/-! The claims. -/

/-- Claim C2: for every sequence of streams passed to `trigger`, the merged
mapping is the union of the streams' value mappings with last-write-wins by
list order: a key bound by the last stream takes that stream's value,
otherwise the merge of the earlier streams decides; instantiated at the
concrete colliding pair `[posXStream, posYStream]`, both of which remap to
the external name `posx`, the merged `posx` is the later stream's value. -/
theorem trigger_union_last_write_wins (ss : List StreamState) (t : StreamState)
    (k : Key) :
    pyGet (triggerUnion (ss ++ [t])) k =
      (pyGet (Stream.value t) k).or (pyGet (triggerUnion ss) k) ∧
    pyGet (triggerUnion [posXStream, posYStream]) "posx" =
      pyGet (Stream.value posYStream) "posx" ∧
    pyGet (triggerUnion [posXStream, posYStream]) "posx" = some (PVal.num 11) := by
  refine ⟨?_, by decide, by decide⟩
  unfold triggerUnion
  rw [List.map_append, List.flatten_append, pyGet_append]
  simp

/-- Claim C3: when no subscriber raises, `trigger` raises nothing, the
invoked callables are exactly the deduplicated union of the streams'
`subscribers` plus `_hidden_subscribers`, each is invoked exactly once (the
trace of invoked callables has no duplicate), and every invocation receives
the single merged value mapping. -/
theorem trigger_subscribers_exactly_once (env : SubEnv) (streams : List StreamState)
    (henv : ∀ f m, env f m = none) :
    (Stream.trigger env streams).2 = none ∧
    ((Stream.trigger env streams).1.map Prod.fst).Nodup ∧
    (∀ f, f ∈ (Stream.trigger env streams).1.map Prod.fst ↔
      f ∈ (streams.map fun s => s.subscribers ++ s.hiddenSubscribers).flatten) ∧
    (∀ c ∈ (Stream.trigger env streams).1, c.2 = triggerUnion streams) := by
  have h := runSubs_ok env (triggerUnion streams) (subsUnion streams)
    fun f _ => henv f _
  unfold Stream.trigger
  rw [h]
  refine ⟨rfl, ?_, ?_, ?_⟩
  · rw [List.map_map,
      show (Prod.fst ∘ fun f : Nat => (f, triggerUnion streams)) = id from rfl,
      List.map_id]
    exact List.nodup_dedup _
  · intro f
    simp [List.map_map, Function.comp, subsUnion, List.mem_dedup]
  · intro c hc
    rcases List.mem_map.mp hc with ⟨g, _, rfl⟩
    rfl

/-- Witness for C3 at a concrete pair of streams sharing subscriber `7`, with
subscribers that never raise. -/
theorem trigger_subscribers_exactly_once_witness :
    (Stream.trigger (fun _ _ => none) [posXStream, posYStream]).2 = none ∧
    ((Stream.trigger (fun _ _ => none) [posXStream, posYStream]).1.map Prod.fst).Nodup ∧
    (7 ∈ (Stream.trigger (fun _ _ => none) [posXStream, posYStream]).1.map Prod.fst ↔
      7 ∈ ([posXStream, posYStream].map fun s =>
        s.subscribers ++ s.hiddenSubscribers).flatten) :=
  ⟨(trigger_subscribers_exactly_once _ _ fun _ _ => rfl).1,
   (trigger_subscribers_exactly_once _ _ fun _ _ => rfl).2.1,
   (trigger_subscribers_exactly_once _ _ fun _ _ => rfl).2.2.1 7⟩

/-- Claim C5: `value` returns exactly what the spec describes — all declared
field values except `name`, keys remapped through `mapping`, then the
preprocessors applied in declared order, each output threaded into the next —
and the read leaves the instance state unchanged, so a second read with no
intervening update returns an equal mapping. -/
theorem value_projection_pure (s : StreamState) :
    valueRead s = (valueSpecification s, s) ∧
    (valueRead (valueRead s).2).1 = (valueRead s).1 := by
  refine ⟨?_, rfl⟩
  unfold valueRead valueSpecification Stream.value getParamValues
  have hbase : ((s.fields.map fun kv => (kv.1, kv.2.value)).filter
        fun kv => kv.1 ≠ "name") =
      (s.fields.filter fun kv => kv.1 ≠ "name").map fun kv => (kv.1, kv.2.value) := by
    rw [List.filter_map]
    rfl
  rw [hbase]

/-- Claim C6: if a subscriber raises during a trigger pass, the exception
propagates out of `trigger` and the subscribers not yet invoked in that pass
(the ones after it in the iteration order) are not invoked: the trace stops
at the raising subscriber. -/
theorem trigger_abort_on_exception (env : SubEnv) (streams : List StreamState)
    (pre post : List Nat) (f : Nat) (e : String)
    (hsubs : subsUnion streams = pre ++ f :: post)
    (hpre : ∀ g ∈ pre, env g (triggerUnion streams) = none)
    (hf : env f (triggerUnion streams) = some e) :
    Stream.trigger env streams =
      (pre.map (fun g => (g, triggerUnion streams)) ++
        [(f, triggerUnion streams)], some e) := by
  unfold Stream.trigger
  rw [hsubs]
  exact runSubs_abort pre post hpre hf

/-- Witness for C6: subscriber `8` raises; subscriber `7` before it runs,
nothing after it runs, and the exception comes back out of `trigger`. -/
theorem trigger_abort_on_exception_witness :
    Stream.trigger (fun g _ => if g = 8 then some "boom" else none)
        [posXStream, posYStream] =
      ([7, 8].map fun g => (g, triggerUnion [posXStream, posYStream])
        , some "boom") := by
  have h := trigger_abort_on_exception
    (fun g _ => if g = 8 then some "boom" else none) [posXStream, posYStream]
    [7] [] 8 "boom" (by decide) (by decide) (by decide)
  rw [h]
  rfl

/-- Claim C7: constructing a stream whose `mapping` argument is a bare scalar
fails with the configuration error when more than two parameters are
declared, and succeeds on a two-parameter stream (implicit `name` plus one
data field), where the scalar becomes the external name of the data field:
`value` is then exactly the singleton mapping from the scalar to the field's
value. -/
theorem scalar_mapping_init (fields : List (Key × PParam)) (v : Key)
    (subs : List Nat) (pres : List Preproc) (pn p : PParam) (k : Key) :
    (2 < fields.length →
      Stream.init fields (MappingArg.scalar v) subs pres =
        Except.error "Stream has multiple parameters, please supply a dictionary") ∧
    (k ≠ "name" →
      (Stream.init [("name", pn), (k, p)] (MappingArg.scalar v) subs []).map
        Stream.value = Except.ok [(v, p.value)]) := by
  constructor
  · intro h
    have hne : fields.length ≠ 2 := by omega
    simp [Stream.init, hne, Except.map]
  · intro hk
    simp [Stream.init, Stream.value, getParamValues, hk, aliasGet, pyGet, Except.map]

/-- Witness for C7: a three-parameter variant is rejected; the two-parameter
`PositionX` shape with `mapping='posx'` projects `value() == `the dict
mapping `posx` to the field value. -/
theorem scalar_mapping_init_witness :
    Stream.init
        [("name", ⟨PType.string, PVal.str "s", false⟩),
         ("x", ⟨PType.number, PVal.num 0, true⟩),
         ("y", ⟨PType.number, PVal.num 0, true⟩)]
        (MappingArg.scalar "posx") [] [] =
      Except.error "Stream has multiple parameters, please supply a dictionary" ∧
    (Stream.init [("name", ⟨PType.string, PVal.str "s", false⟩),
        ("x", ⟨PType.number, PVal.num 3, true⟩)]
        (MappingArg.scalar "posx") [] []).map Stream.value =
      Except.ok [("posx", PVal.num 3)] :=
  ⟨(scalar_mapping_init _ "posx" [] [] ⟨PType.string, PVal.str "s", false⟩
      ⟨PType.number, PVal.num 3, true⟩ "x").1 (by decide),
   (scalar_mapping_init [] "posx" [] [] ⟨PType.string, PVal.str "s", false⟩
      ⟨PType.number, PVal.num 3, true⟩ "x").2 (by decide)⟩

/-- Claim C8: `update` with an unrecognised field name does not fail: it
returns no error, the unknown name is accepted silently by the generic
setter (it lands in the instance's generic attributes with the given value),
and the declared fields — constant flags included — come back exactly as
they were. -/
theorem update_unknown_field_permissive (s : StreamState) (k : Key) (v : PVal)
    (hk : pyGet s.fields k = none) :
    (Stream.update s [(k, v)]).2 = none ∧
    (Stream.update s [(k, v)]).1 = { s with extra := s.extra ++ [(k, v)] } := by
  rw [update_unknown s k v hk]
  exact ⟨rfl, rfl⟩

/-- Witness for C8: updating `posXStream` under the unknown name `zz`. -/
theorem update_unknown_field_permissive_witness :
    (Stream.update posXStream [("zz", PVal.num 1)]).2 = none ∧
    (Stream.update posXStream [("zz", PVal.num 1)]).1 =
      { posXStream with extra := posXStream.extra ++ [("zz", PVal.num 1)] } :=
  update_unknown_field_permissive posXStream "zz" (PVal.num 1) (by decide)

/-- Claim C9: `Rename` maps `{'x': 3, 'y': 4}` under `x='posx'` to
`{'posx': 3, 'y': 4}`; in general every input entry reappears with its key
replaced by its alias when the alias table binds it — value unchanged — every
output entry arises that way from an input entry, and a key absent from the
alias table is kept unchanged.  `renameApply` is a pure function, so
repeated calls on equal input give equal output by construction. -/
theorem rename_preprocessor (table : List (Key × Key)) (params : List (Key × PVal))
    (k : Key) (v : PVal) :
    renameApply [("x", "posx")] [("x", PVal.num 3), ("y", PVal.num 4)] =
      [("posx", PVal.num 3), ("y", PVal.num 4)] ∧
    ((k, v) ∈ params → (aliasGet table k, v) ∈ renameApply table params) ∧
    (∀ kv ∈ renameApply table params, ∃ kv0 ∈ params,
      kv = (aliasGet table kv0.1, kv0.2)) ∧
    (pyGet table k = none → aliasGet table k = k) := by
  refine ⟨by decide, ?_, ?_, ?_⟩
  · intro hm
    exact List.mem_map_of_mem _ hm
  · intro kv hkv
    rcases List.mem_map.mp hkv with ⟨kv0, h0, rfl⟩
    exact ⟨kv0, h0, rfl⟩
  · intro h
    simp [aliasGet, h]

/-- Witness for C9 at the spec's own example. -/
theorem rename_preprocessor_witness :
    (aliasGet [("x", "posx")] "x", PVal.num 3) ∈
      renameApply [("x", "posx")] [("x", PVal.num 3), ("y", PVal.num 4)] ∧
    aliasGet [("x", "posx")] "z" = "z" :=
  ⟨(rename_preprocessor [("x", "posx")] [("x", PVal.num 3), ("y", PVal.num 4)]
      "x" (PVal.num 3)).2.1 (by decide),
   (rename_preprocessor [("x", "posx")] [] "z" (PVal.num 3)).2.2.2 (by decide)⟩

/-- Claim C10: two streams constructed without an explicit `subscribers`
argument hold the same underlying list object (the constructor's mutable
default, evaluated once), whatever their other arguments; the same holds for
the `preprocessors` default; and appending a subscriber through one such
stream makes it a member of the subscriber set a trigger of the other stream
invokes. -/
theorem default_subscribers_shared (env : DefaultEnv) (h : SubHeap) (f : Nat)
    (p1 p2 : Option Nat) (s3 : Option Nat) :
    (initRefs env Option.none p1).subsRef = (initRefs env Option.none p2).subsRef ∧
    (initRefs env s3 Option.none).preRef =
      (initRefs env Option.none Option.none).preRef ∧
    f ∈ triggerSubsHeap
        (SubHeap.append h (initRefs env Option.none p1).subsRef f)
        [initRefs env Option.none p2] := by
  refine ⟨rfl, rfl, ?_⟩
  simp [triggerSubsHeap, SubHeap.append, initRefs, List.mem_dedup]

/-- Claim C4: `update` applies all supplied field values before any trigger
fires, and with the trigger flag set (the default) the trigger protocol runs
exactly once for this single instance.  With one subscriber that does not
raise and a successful assignment, `updateT` produces exactly one invocation,
whose argument is the `value` projection of the fully-updated state; and for
a single declared valid field update, that delivered mapping binds the
field's remapped external name to the new value (provided the projected
external names are pairwise distinct). -/
theorem update_snapshot_single_trigger (env : SubEnv) (s : StreamState) (f : Nat)
    (kwargs : List (Key × PVal))
    (hsubs : s.subscribers = [f]) (hhid : s.hiddenSubscribers = [])
    (henv : ∀ m, env f m = none)
    (hok : (Stream.update s kwargs).2 = none) :
    (Stream.updateT env s true kwargs =
      ((Stream.update s kwargs).1,
        [(f, Stream.value (Stream.update s kwargs).1)], none)) ∧
    (∀ k v p, kwargs = [(k, v)] → s.preprocessors = [] → k ≠ "name" →
      pyGet s.fields k = some p → p.ptype.validates v = true →
      ((((fieldVals s.fields).filter fun kv => kv.1 ≠ "name").map
          fun kv => aliasGet s.mapping kv.1).Nodup) →
      pyGet (Stream.value (Stream.update s kwargs).1) (aliasGet s.mapping k) =
        some v) := by
  constructor
  · have hcomp := update_components s kwargs
    unfold Stream.updateT
    cases hu : Stream.update s kwargs with
    | mk s1 err =>
        rw [hu] at hok hcomp
        have herr : err = none := hok
        subst herr
        have hc2 : s1.subscribers = [f] := hcomp.2.1.trans hsubs
        have hc3 : s1.hiddenSubscribers = [] := hcomp.2.2.1.trans hhid
        have hsl : subsUnion [s1] = [f] := by
          simp [subsUnion, hc2, hc3]
        have htr : Stream.trigger env [s1] = ([(f, triggerUnion [s1])], none) := by
          unfold Stream.trigger
          rw [hsl, runSubs_ok env (triggerUnion [s1]) [f] fun g hg => by
            rcases List.mem_singleton.mp hg with rfl
            exact henv _]
          rfl
        show (s1, (Stream.trigger env [s1]).1, (Stream.trigger env [s1]).2) =
          (s1, [(f, Stream.value s1)], none)
        rw [htr]
        simp [triggerUnion]
  · intro k v p hkw hpre hkname hdecl hval hnd
    subst hkw
    have hud := update_declared_single s k v p hdecl hval
    have hmap := (update_components s [(k, v)]).1
    have hpre1 : (Stream.update s [(k, v)]).1.preprocessors = [] :=
      (update_components s [(k, v)]).2.2.2.trans hpre
    have hkv1 : pyGet (fieldVals (Stream.update s [(k, v)]).1.fields) k = some v := by
      rw [hud.2]
      refine (pyGet_map_keyed s.fields (fun a (b : PParam) =>
        if a = k then v else b.value) k).trans ?_
      rw [hdecl]
      simp
    have hndeq :
        (((fieldVals (Stream.update s [(k, v)]).1.fields).filter
            fun kv => kv.1 ≠ "name").map
          fun kv => aliasGet (Stream.update s [(k, v)]).1.mapping kv.1) =
        ((fieldVals s.fields).filter fun kv => kv.1 ≠ "name").map
          fun kv => aliasGet s.mapping kv.1 := by
      rw [hmap]
      exact filter_map_fst_congr (fun a => decide (a ≠ "name")) (aliasGet s.mapping)
        (by rw [hud.2]; simp [fieldVals, List.map_map])
    have hres := value_lookup (Stream.update s [(k, v)]).1 k v hpre1 hkv1 hkname
      (by rw [hndeq]; exact hnd)
    rwa [hmap] at hres

/-- Witness for C4: updating `posXStream` (one subscriber, token `7`) with
`x=5` delivers exactly one invocation carrying the fully-updated remapped
snapshot, in which `posx` is bound to the new value. -/
theorem update_snapshot_single_trigger_witness :
    Stream.updateT (fun _ _ => none) posXStream true [("x", PVal.num 5)] =
      ((Stream.update posXStream [("x", PVal.num 5)]).1,
        [(7, Stream.value (Stream.update posXStream [("x", PVal.num 5)]).1)],
        none) ∧
    pyGet (Stream.value (Stream.update posXStream [("x", PVal.num 5)]).1)
        (aliasGet posXStream.mapping "x") = some (PVal.num 5) :=
  ⟨(update_snapshot_single_trigger (fun _ _ => none) posXStream 7
      [("x", PVal.num 5)] rfl rfl (fun _ => rfl) (by decide)).1,
   (update_snapshot_single_trigger (fun _ _ => none) posXStream 7
      [("x", PVal.num 5)] rfl rfl (fun _ => rfl) (by decide)).2
     "x" (PVal.num 5) ⟨PType.number, PVal.num 0, true⟩ rfl rfl (by decide)
     (by decide) (by decide) (by decide)⟩

/-- Claim C1 as stated is false on the source: `update` has no `try/finally`,
so when the assignment raises — here a type-invalid value for the declared
numeric field `x` of the concrete stream `posXStream` — the restoration loop
is skipped and the constant flags after the call differ from the flags
before it. -/
theorem update_restore_counterexample :
    (Stream.update posXStream [("x", PVal.str "invalid")]).2 ≠ none ∧
    constFlags (Stream.update posXStream [("x", PVal.str "invalid")]).1 ≠
      constFlags posXStream := by decide

/-- Claim C1 (amended): `update` lifts the constant protection on all fields
and applies the new values; when the assignment raises no exception it
restores each field's original constant flag, those of untouched fields
included; but when the assignment raises, the exception propagates with the
restoration skipped, and every field's constant flag is left at `False`. -/
theorem update_restores_flags_on_success (s : StreamState)
    (kwargs : List (Key × PVal)) :
    ((Stream.update s kwargs).2 = none →
      constFlags (Stream.update s kwargs).1 = constFlags s) ∧
    ((Stream.update s kwargs).2 ≠ none →
      constFlags (Stream.update s kwargs).1 = s.fields.map fun _ => false) :=
  ⟨update_ok_flags s kwargs, update_err_flags s kwargs⟩

/-- Witness for the amended C1: a successful update of `posXStream` restores
the flags; the failing update of the same stream leaves them all lowered. -/
theorem update_restores_flags_on_success_witness :
    constFlags (Stream.update posXStream [("x", PVal.num 5)]).1 =
      constFlags posXStream ∧
    constFlags (Stream.update posXStream [("x", PVal.str "invalid")]).1 =
      posXStream.fields.map fun _ => false :=
  ⟨(update_restores_flags_on_success posXStream [("x", PVal.num 5)]).1 (by decide),
   (update_restores_flags_on_success posXStream
      [("x", PVal.str "invalid")]).2 (by decide)⟩

end HoloStreams

